import Mathlib

/-
Formal model of the IR-construction core of the TinyGo compiler
(interface values, function values / closures, and deferred calls).

The definitions below are a shallow embedding of the Go source files:
  * compiler/interface.go  (parseMakeInterface, getTypeCode, getTypeCodeName,
    getTypeMethodSet, getInterfaceMethodSet, getMethodSignature,
    parseTypeAssert, getInvokeCall, getInterfaceInvokeWrapper,
    createInterfaceInvokeWrapper)
  * compiler/func.go       (funcImplementation, createFuncValue,
    getFuncSignature, getRawFuncType, parseMakeClosure)
  * compiler/defer.go      (deferInitFunc, emitDefer, emitRunDefers)

A Go panic is modelled as `Except.error` (the whole compilation aborts);
a recoverable user diagnostic (c.addError) is modelled as an entry appended
to an error list while construction continues.  External collaborators that
are not part of the embedded sources (go/types printing, the front-end
method-set oracle, the LLVM type lowering of source types) are abstracted
as parameters of the `Compiler` structure, and helpers that the sources use
but whose definitions live outside the embedded files are modelled from the
specification text; each such definition carries a doc comment saying so.
-/

set_option maxHeartbeats 1000000

namespace TinyGoModel

/-- Basic type kinds distinguished by the `types.Basic` switch inside
`getTypeCodeName`. -/
inductive BasicKind where
  | boolK | intK | int8 | int16 | int32 | int64
  | uintK | uint8 | uint16 | uint32 | uint64 | uintptrK
  | float32 | float64 | complex64 | complex128
  | stringK | unsafeptr
deriving DecidableEq

/-- The kind name string assigned to each basic kind by `getTypeCodeName`. -/
def basicKindName : BasicKind → String
  | .boolK => "bool"
  | .intK => "int"
  | .int8 => "int8"
  | .int16 => "int16"
  | .int32 => "int32"
  | .int64 => "int64"
  | .uintK => "uint"
  | .uint8 => "uint8"
  | .uint16 => "uint16"
  | .uint32 => "uint32"
  | .uint64 => "uint64"
  | .uintptrK => "uintptr"
  | .float32 => "float32"
  | .float64 => "float64"
  | .complex64 => "complex64"
  | .complex128 => "complex128"
  | .stringK => "string"
  | .unsafeptr => "unsafeptr"

/-- Shapes of `go/types.Type` values as far as `getTypeCodeName` inspects
them.  Struct fields carry their field name (used by the cgo-union check)
and their type; interface types carry the list of their method signature
types (`t.Method(i).Type()`). -/
inductive GoType where
  | basic (k : BasicKind)
  | array (len : Nat) (elem : GoType)
  | chanT (elem : GoType)
  | interfaceT (methods : List GoType)
  | mapT (key : GoType) (elem : GoType)
  | pointer (elem : GoType)
  | signature (params : List GoType) (results : List GoType)
  | slice (elem : GoType)
  | structT (fields : List (String × GoType))
  | named (name : String) (underlying : GoType)

/-- The panic message of the cgo-union refusal in `getTypeCodeName`. -/
def cgoUnionError : String := "cgo unions are not allowed in interfaces"

/-- Name of the first struct field, used by the cgo-union check
(`t.Field(0).Name()`; the check only reads it when `NumFields() > 2`, so the
empty-list default is never observed by the model of that check). -/
def headFieldName : List (String × GoType) → String
  | [] => ""
  | f :: _ => f.1

mutual

/-- Model of `getTypeCodeName` (compiler/interface.go): produces the
canonical textual identity of a source type.  A `*types.Named` type sets
`name = "~" + named.String() + ":"` and switches on its underlying type;
all panics of the Go function are modelled as `Except.error`. -/
def getTypeCodeName : GoType → Except String String
  | .named n u => mangleTag ("~" ++ n ++ ":") u
  | t => mangleTag "" t
termination_by t => (sizeOf t, 1)

/-- The switch body of `getTypeCodeName`, with `name` the already-computed
named-type segment (empty for unnamed types).  The `.named` case models the
default branch of the Go switch (`panic("unknown type: ...")`), which is
what the Go code would do if `Underlying()` ever returned a named type. -/
def mangleTag (name : String) : GoType → Except String String
  | .array len elem =>
      match getTypeCodeName elem with
      | .error e => .error e
      | .ok s => .ok ("array:" ++ name ++ toString len ++ ":" ++ s)
  | .basic k => .ok ("basic:" ++ name ++ basicKindName k)
  | .chanT elem =>
      match getTypeCodeName elem with
      | .error e => .error e
      | .ok s => .ok ("chan:" ++ name ++ s)
  | .interfaceT methods =>
      match mangleList methods with
      | .error e => .error e
      | .ok ms => .ok ("interface:" ++ name ++ "\x7b" ++ String.intercalate "," ms ++ "\x7d")
  | .mapT key elem =>
      match getTypeCodeName key with
      | .error e => .error e
      | .ok k =>
        match getTypeCodeName elem with
        | .error e => .error e
        | .ok s => .ok ("map:" ++ name ++ "\x7b" ++ k ++ "," ++ s ++ "\x7d")
  | .pointer elem =>
      match getTypeCodeName elem with
      | .error e => .error e
      | .ok s => .ok ("pointer:" ++ name ++ s)
  | .signature params results =>
      match mangleList params with
      | .error e => .error e
      | .ok ps =>
        match mangleList results with
        | .error e => .error e
        | .ok rs => .ok ("func:" ++ name ++ "\x7b" ++ String.intercalate "," ps ++ "\x7d\x7b" ++
            String.intercalate "," rs ++ "\x7d")
  | .slice elem =>
      match getTypeCodeName elem with
      | .error e => .error e
      | .ok s => .ok ("slice:" ++ name ++ s)
  | .structT fields =>
      if fields.length > 2 && headFieldName fields == "C union" then
        .error cgoUnionError
      else
        match mangleFieldList fields with
        | .error e => .error e
        | .ok es => .ok ("struct:" ++ name ++ "\x7b" ++ String.intercalate "," es ++ "\x7d")
  | .named n _ => .error ("unknown type: " ++ n)
termination_by t => (sizeOf t, 0)

/-- Recursive mangling of a list of types (the loops over interface
methods and signature parameters/results in `getTypeCodeName`). -/
def mangleList : List GoType → Except String (List String)
  | [] => .ok []
  | t :: ts =>
      match getTypeCodeName t with
      | .error e => .error e
      | .ok s =>
        match mangleList ts with
        | .error e => .error e
        | .ok ss => .ok (s :: ss)
termination_by ts => (sizeOf ts, 0)

/-- Recursive mangling of struct fields: only the field types are mangled,
field names are dropped (`elems[i] = getTypeCodeName(t.Field(i).Type())`). -/
def mangleFieldList : List (String × GoType) → Except String (List String)
  | [] => .ok []
  | (_, t) :: fs =>
      match getTypeCodeName t with
      | .error e => .error e
      | .ok s =>
        match mangleFieldList fs with
        | .error e => .error e
        | .ok ss => .ok (s :: ss)
termination_by fs => (sizeOf fs, 0)

end

/-- The constructor tag that `getTypeCodeName` prepends for each type
shape, including the trailing colon. -/
def ctorTag : GoType → String
  | .array _ _ => "array:"
  | .basic _ => "basic:"
  | .chanT _ => "chan:"
  | .interfaceT _ => "interface:"
  | .mapT _ _ => "map:"
  | .pointer _ => "pointer:"
  | .signature _ _ => "func:"
  | .slice _ => "slice:"
  | .structT _ => "struct:"
  | .named _ _ => ""

/-- Key structural fact about the named-type segment: whenever the underlying
type mangles successfully, the `name` argument of `mangleTag` is inserted
immediately after the constructor tag of the identifier, and the remainder of
the identifier does not depend on `name`. -/
theorem mangleTag_named_segment (u : GoType) (s : String) (name : String)
    (h : mangleTag "" u = .ok s) :
    ∃ rest, s = ctorTag u ++ rest ∧ mangleTag name u = .ok (ctorTag u ++ name ++ rest) := by
  cases u with
  | array len elem =>
      simp only [mangleTag, ctorTag] at h ⊢
      cases he : getTypeCodeName elem with
      | error e => simp [he] at h
      | ok e =>
          simp only [he] at h ⊢
          simp only [Except.ok.injEq] at h ⊢
          subst h
          exact ⟨toString len ++ ":" ++ e, by simp [String.append_assoc], by simp [String.append_assoc]⟩
  | basic k =>
      simp only [mangleTag, ctorTag, Except.ok.injEq] at h ⊢
      subst h
      exact ⟨basicKindName k, by simp [String.append_assoc], by simp [String.append_assoc]⟩
  | chanT elem =>
      simp only [mangleTag, ctorTag] at h ⊢
      cases he : getTypeCodeName elem with
      | error e => simp [he] at h
      | ok e =>
          simp only [he, Except.ok.injEq] at h ⊢
          subst h
          exact ⟨e, by simp [String.append_assoc], by simp [String.append_assoc]⟩
  | interfaceT methods =>
      simp only [mangleTag, ctorTag] at h ⊢
      cases he : mangleList methods with
      | error e => simp [he] at h
      | ok ms =>
          simp only [he, Except.ok.injEq] at h ⊢
          subst h
          exact ⟨"\x7b" ++ String.intercalate "," ms ++ "\x7d",
            by simp [← String.append_assoc], by simp [String.append_assoc]⟩
  | mapT key elem =>
      simp only [mangleTag, ctorTag] at h ⊢
      cases hk : getTypeCodeName key with
      | error e => simp [hk] at h
      | ok k =>
          cases he : getTypeCodeName elem with
          | error e => simp [hk, he] at h
          | ok e =>
              simp only [hk, he, Except.ok.injEq] at h ⊢
              subst h
              exact ⟨"\x7b" ++ k ++ "," ++ e ++ "\x7d",
                by simp [← String.append_assoc], by simp [String.append_assoc]⟩
  | pointer elem =>
      simp only [mangleTag, ctorTag] at h ⊢
      cases he : getTypeCodeName elem with
      | error e => simp [he] at h
      | ok e =>
          simp only [he, Except.ok.injEq] at h ⊢
          subst h
          exact ⟨e, by simp [String.append_assoc], by simp [String.append_assoc]⟩
  | signature params results =>
      simp only [mangleTag, ctorTag] at h ⊢
      cases hp : mangleList params with
      | error e => simp [hp] at h
      | ok ps =>
          cases hr : mangleList results with
          | error e => simp [hp, hr] at h
          | ok rs =>
              simp only [hp, hr, Except.ok.injEq] at h ⊢
              subst h
              exact ⟨"\x7b" ++ String.intercalate "," ps ++ "\x7d\x7b" ++
                String.intercalate "," rs ++ "\x7d",
                by simp [← String.append_assoc], by simp [String.append_assoc]⟩
  | slice elem =>
      simp only [mangleTag, ctorTag] at h ⊢
      cases he : getTypeCodeName elem with
      | error e => simp [he] at h
      | ok e =>
          simp only [he, Except.ok.injEq] at h ⊢
          subst h
          exact ⟨e, by simp [String.append_assoc], by simp [String.append_assoc]⟩
  | structT fields =>
      simp only [mangleTag, ctorTag] at h ⊢
      split at h
      · simp at h
      · next hcond =>
          simp only [hcond, if_neg, Bool.false_eq_true, not_false_eq_true]
          cases he : mangleFieldList fields with
          | error e => simp [he] at h
          | ok es =>
              simp only [he, Except.ok.injEq] at h
              subst h
              refine ⟨"\x7b" ++ String.intercalate "," es ++ "\x7d", by simp [← String.append_assoc], ?_⟩
              simp only [hcond, if_neg, Bool.false_eq_true, not_false_eq_true, he]
              simp [String.append_assoc]
  | named n u => simp [mangleTag] at h

/-- Underlying struct shape of the Point example: struct with int32, int32. -/
def pointFields : List (String × GoType) := [("x", .basic .int32), ("y", .basic .int32)]

/-- A cgo union struct: more than two fields, first field named "C union". -/
def cgoUnionStruct : GoType :=
  .structT [("C union", .basic .uint32), ("a", .basic .uint32), ("b", .basic .uint32)]

/-- C1 (corrected): the named type pkg.Point with underlying struct of two
int32 fields mangles to "struct:~pkg.Point:\x7b...\x7d", not to the leading-segment
form "~pkg.Point:struct:\x7b...\x7d" stated by the claim. -/
theorem claim_C1_counterexample :
    getTypeCodeName (.named "pkg.Point" (.structT pointFields)) =
      .ok "struct:~pkg.Point:\x7bbasic:int32,basic:int32\x7d" ∧
    "struct:~pkg.Point:\x7bbasic:int32,basic:int32\x7d" ≠
      "~pkg.Point:struct:\x7bbasic:int32,basic:int32\x7d" := by
  constructor
  · simp [getTypeCodeName, mangleTag, mangleFieldList, headFieldName, basicKindName, pointFields]
    rfl
  · decide

/-- C1 (amended): for every named source type whose underlying type mangles
successfully, the mangler wraps the underlying identity with a
"~qualified name:" segment placed immediately after the constructor tag
(for Point: "struct:~pkg.Point:\x7bbasic:int32,basic:int32\x7d"), and the resulting
identifier is distinct from the identifier of the unnamed underlying type. -/
theorem claim_C1 (n : String) (u : GoType) (s : String)
    (h : mangleTag "" u = .ok s) :
    ∃ rest, s = ctorTag u ++ rest ∧
      getTypeCodeName (.named n u) = .ok (ctorTag u ++ ("~" ++ n ++ ":") ++ rest) ∧
      ctorTag u ++ ("~" ++ n ++ ":") ++ rest ≠ s := by
  obtain ⟨rest, h1, h2⟩ := mangleTag_named_segment u s ("~" ++ n ++ ":") h
  refine ⟨rest, h1, ?_, ?_⟩
  · rw [getTypeCodeName]
    exact h2
  · intro heq
    rw [h1] at heq
    have hl := congrArg String.length heq
    have h1l : ("~" : String).length = 1 := rfl
    have h2l : (":" : String).length = 1 := rfl
    simp [String.length_append, h1l, h2l] at hl

/-- C1 witness: the amended claim at the concrete Point input. -/
theorem claim_C1_witness :
    mangleTag "" (GoType.structT pointFields) = .ok "struct:\x7bbasic:int32,basic:int32\x7d" ∧
    (∃ rest, "struct:\x7bbasic:int32,basic:int32\x7d" = ctorTag (GoType.structT pointFields) ++ rest ∧
      getTypeCodeName (.named "pkg.Point" (.structT pointFields)) =
        .ok (ctorTag (GoType.structT pointFields) ++ ("~" ++ "pkg.Point" ++ ":") ++ rest) ∧
      ctorTag (GoType.structT pointFields) ++ ("~" ++ "pkg.Point" ++ ":") ++ rest ≠
        "struct:\x7bbasic:int32,basic:int32\x7d") := by
  have h : mangleTag "" (GoType.structT pointFields) = .ok "struct:\x7bbasic:int32,basic:int32\x7d" := by
    simp [mangleTag, mangleFieldList, getTypeCodeName, headFieldName, basicKindName, pointFields]
    rfl
  exact ⟨h, claim_C1 "pkg.Point" _ _ h⟩

/-- C2: mangling a cgo union struct panics (modelled as Except.error),
aborting the whole compilation; no recoverable diagnostic with a source
position is recorded anywhere in this path. -/
theorem claim_C2_eval :
    getTypeCodeName cgoUnionStruct = .error cgoUnionError := by
  simp [getTypeCodeName, mangleTag, cgoUnionStruct, headFieldName]

/-- C9 (amended): the cgo-union rejection fires exactly when the struct
itself has more than two fields and its first field is named "C union": a
struct with at most two fields is never rejected by the check itself (even
with a reserved first field name) and mangles to an identifier whenever all
of its field types mangle, and whenever the struct is outside that region
(at most two fields, or a first field that is not the reserved name) the
result is exactly the propagation of the field mangling, so the check never
fires there; mangling may still fail inside a field type. -/
theorem claim_C9 (fields : List (String × GoType)) :
    (∀ es, fields.length ≤ 2 → mangleFieldList fields = .ok es →
      getTypeCodeName (.structT fields) =
        .ok ("struct:" ++ "\x7b" ++ String.intercalate "," es ++ "\x7d")) ∧
    (2 < fields.length → headFieldName fields = "C union" →
      getTypeCodeName (.structT fields) = .error cgoUnionError) ∧
    (¬(2 < fields.length ∧ headFieldName fields = "C union") →
      getTypeCodeName (.structT fields) =
        match mangleFieldList fields with
        | .error e => .error e
        | .ok es => .ok ("struct:" ++ "\x7b" ++ String.intercalate "," es ++ "\x7d")) := by
  refine ⟨?_, ?_, ?_⟩
  · intro es hle hm
    have hdec : decide (fields.length > 2) = false := by
      simp
      omega
    simp [getTypeCodeName, mangleTag, hdec, hm]
  · intro hgt hname
    have hdec : (decide (fields.length > 2) && (headFieldName fields == "C union")) = true := by
      simp [hname]
      omega
    simp [getTypeCodeName, mangleTag, hdec]
  · intro hnot
    have hdec : (decide (fields.length > 2) && (headFieldName fields == "C union")) = false := by
      by_cases hlen : 2 < fields.length
      · have hname : headFieldName fields ≠ "C union" := fun h => hnot ⟨hlen, h⟩
        simp [hname]
      · simp
        omega
    cases hm : mangleFieldList fields with
    | error e => simp [getTypeCodeName, mangleTag, hdec, hm]
    | ok es => simp [getTypeCodeName, mangleTag, hdec, hm]

/-- C9 counterexample: a struct with a single field whose type is a cgo
union struct has at most two fields but is still rejected (the rejection
surfaces from the recursive mangling of the field type), so the universal
claim that structs with at most two fields always mangle is false. -/
theorem claim_C9_counterexample :
    ([("u", cgoUnionStruct)] : List (String × GoType)).length ≤ 2 ∧
    getTypeCodeName (.structT [("u", cgoUnionStruct)]) = .error cgoUnionError := by
  constructor
  · simp
  · simp [getTypeCodeName, mangleTag, mangleFieldList, cgoUnionStruct, headFieldName]

/-- C9 witness: a two-field struct whose first field is named "C union"
mangles successfully, and the three-field variant is rejected. -/
theorem claim_C9_witness :
    getTypeCodeName (.structT [("C union", .basic .uint32), ("b", .basic .uint32)]) =
      .ok ("struct:" ++ "\x7b" ++ String.intercalate "," ["basic:uint32", "basic:uint32"] ++ "\x7d") ∧
    getTypeCodeName cgoUnionStruct = .error cgoUnionError ∧
    getTypeCodeName (.structT [("a", .basic .uint32), ("b", .basic .uint32),
        ("c", .basic .uint32)]) =
      match mangleFieldList [("a", .basic .uint32), ("b", .basic .uint32),
          ("c", .basic .uint32)] with
      | .error e => .error e
      | .ok es => .ok ("struct:" ++ "\x7b" ++ String.intercalate "," es ++ "\x7d") := by
  refine ⟨?_, ?_, ?_⟩
  · refine (claim_C9 _).1 ["basic:uint32", "basic:uint32"] (by simp) ?_
    simp [mangleFieldList, getTypeCodeName, mangleTag, basicKindName]
  · exact (claim_C9 _).2.1 (by simp [cgoUnionStruct]) (by simp [cgoUnionStruct, headFieldName])
  · exact (claim_C9 _).2.2 (by simp [headFieldName])


/- ===== LLVM-level data model ===== -/

/-- LLVM types as far as the embedded functions inspect them.  A named
struct carries its name (`sname = ""` for literal structs). -/
inductive LLVMType where
  | voidT
  | intT (bits : Nat)
  | ptr (elem : LLVMType)
  | structL (sname : String) (fields : List LLVMType)
  | funcT (ret : LLVMType) (params : List LLVMType)

/-- The `i8*` type (`c.i8ptrType`). -/
def i8ptrType : LLVMType := .ptr (.intT 8)

/-- The `TypeKind() == llvm.PointerTypeKind` test. -/
def LLVMType.isPointerKind : LLVMType → Bool
  | .ptr _ => true
  | _ => false

/-- The `StructName()` accessor: name of a named struct, `""` otherwise. -/
def LLVMType.structName : LLVMType → String
  | .structL n _ => n
  | _ => ""

mutual

/-- Modelled from the spec: `expandFormalParamType` (compiler/calls.go, which
is not among the embedded files) — "struct-typed parameters are exploded
into their scalar leaves"; any non-struct type is passed through as a
single parameter. -/
def expandFormalParamType : LLVMType → List LLVMType
  | .structL _ fields => expandParamList fields
  | t => [t]
termination_by t => (sizeOf t, 1)

/-- Modelled from the spec: leaf expansion of a list of struct field types. -/
def expandParamList : List LLVMType → List LLVMType
  | [] => []
  | t :: ts => expandFormalParamType t ++ expandParamList ts
termination_by ts => (sizeOf ts, 0)

end

/-- LLVM constants and instruction results as far as the embedded functions
build them.  A `packed` value is the result of the (spec-modelled)
`emitPointerPack` helper. -/
inductive Value where
  | globalRef (vname : String)
  | funcRef (fname : String)
  | gep (vname : String)
  | nullPtr
  | ptrToInt (v : Value)
  | undef
  | structV (fields : List Value)
  | arrayV (elems : List Value)
  | packed (vals : List Value)
  | extractV (v : Value) (idx : Nat)
  | intConst (n : Nat)

/-- Linkage values used by the embedded functions. -/
inductive Linkage where
  | externalL | privateL | internalL
deriving DecidableEq

/-- A module global variable; `init = none` models an external declaration. -/
structure GlobalVar where
  gname : String
  isConstant : Bool
  linkage : Linkage
  init : Option Value

/-- A module function declaration (only the attributes the embedded
functions read or write are modelled). -/
structure FuncDecl where
  fname : String
  linkage : Linkage
  unnamedAddr : Bool

/-- Per-method metadata consumed from the front-end: the interned signature
string (`ir.MethodSignature(method)`), the link name of the method function,
and the receiver type (`f.Params[0].Type()`). -/
structure Method where
  sigString : String
  linkName : String
  recvType : GoType

/-- The LLVM module: an interned namespace of globals and functions, plus
the queue of invocation wrappers awaiting their finalization-phase body
(`c.interfaceInvokeWrappers`). -/
structure Module where
  globals : List GlobalVar
  funcs : List FuncDecl
  invokeWrappers : List Method

/-- The `mod.NamedGlobal(name)` lookup. -/
def Module.namedGlobal (m : Module) (s : String) : Option GlobalVar :=
  m.globals.find? (fun g => g.gname == s)

/-- The `mod.NamedFunction(name)` lookup. -/
def Module.namedFunction (m : Module) (s : String) : Option FuncDecl :=
  m.funcs.find? (fun f => f.fname == s)

/-- The `llvm.AddGlobal` call (with the follow-up Set mutations folded into
the record). -/
def Module.addGlobal (m : Module) (g : GlobalVar) : Module :=
  { m with globals := m.globals ++ [g] }

/-- The `llvm.AddFunction` call. -/
def Module.addFunction (m : Module) (f : FuncDecl) : Module :=
  { m with funcs := m.funcs ++ [f] }

/-- The empty module. -/
def emptyModule : Module := { globals := [], funcs := [], invokeWrappers := [] }

/-- Compiler state and external collaborators.  `typeString` is the go/types
`Type.String()` printer, `methodSet` the front-end method-set oracle
(`c.ir.Program.MethodSets.MethodSet`), `interfaceMethods` the declared
methods of a named interface type, `getLLVMType` the (external) lowering of
source types to LLVM types, and `declaredFunctions` the set of functions
known to `c.getFunction`. -/
structure Compiler where
  GOARCH : String
  typeString : GoType → String
  methodSet : GoType → List Method
  interfaceMethods : GoType → List Method
  getLLVMType : GoType → LLVMType
  declaredFunctions : List String

/- ===== compiler/interface.go ===== -/

/-- Model of `getTypeCode`: returns the name of the external placeholder
global `type:<identity>`, creating it on first request. -/
def getTypeCode (m : Module) (typ : GoType) : Except String (String × Module) :=
  match getTypeCodeName typ with
  | .error e => .error e
  | .ok tn =>
    let globalName := "type:" ++ tn
    match m.namedGlobal globalName with
    | some _ => .ok (globalName, m)
    | none => .ok (globalName,
        m.addGlobal { gname := globalName, isConstant := true, linkage := .externalL,
                      init := none })

/-- Model of `getMethodSignature`: external byte global `func <signature>`
interned by signature string. -/
def getMethodSignature (m : Module) (method : Method) : Value × Module :=
  let gname := "func " ++ method.sigString
  match m.namedGlobal gname with
  | some _ => (.globalRef gname, m)
  | none => (.globalRef gname,
      m.addGlobal { gname := gname, isConstant := true, linkage := .externalL, init := none })

/-- Model of `getInterfaceInvokeWrapper`: returns the function whose address
is stored in the method-set entry.  For a single-pointer receiver no wrapper
is needed and the method function itself is returned; otherwise a wrapper
declaration is added and queued for the finalization phase. -/
def getInterfaceInvokeWrapper (c : Compiler) (m : Module) (meth : Method) : Value × Module :=
  let wrapperName := meth.linkName ++ "$invoke"
  match m.namedFunction wrapperName with
  | some _ => (.funcRef wrapperName, m)
  | none =>
    let receiverType := c.getLLVMType meth.recvType
    let expandedReceiverType := expandFormalParamType receiverType
    if expandedReceiverType.length == 1 && receiverType.isPointerKind then
      (.funcRef meth.linkName, m)
    else
      let m2 := m.addFunction { fname := wrapperName, linkage := .externalL, unnamedAddr := false }
      (.funcRef wrapperName, { m2 with invokeWrappers := m2.invokeWrappers ++ [meth] })

/-- Model of `createInterfaceInvokeWrapper` (finalization phase): gives the
wrapper internal linkage and unnamed address.  The straight-line body
(receiver unpack, parameter expansion, tail call) adds no module-level
state beyond the function itself and is not modelled further. -/
def createInterfaceInvokeWrapper (m : Module) (meth : Method) : Module :=
  { m with funcs := m.funcs.map (fun f =>
      if f.fname == meth.linkName ++ "$invoke" then
        { f with linkage := .internalL, unnamedAddr := true }
      else f) }

/-- The loop body of `getTypeMethodSet`: one `interfaceMethodInfo` record per
method, interning signature globals and invoke wrappers along the way; the
missing-function branch models the `cannot find function` panic. -/
def methodSetEntries (c : Compiler) : Module → List Method → Except String (List Value × Module)
  | m, [] => .ok ([], m)
  | m, meth :: rest =>
      let (sigGlobal, m1) := getMethodSignature m meth
      if c.declaredFunctions.contains meth.linkName then
        let (fn, m2) := getInterfaceInvokeWrapper c m1 meth
        match methodSetEntries c m2 rest with
        | .error e => .error e
        | .ok (entries, m3) => .ok (.structV [sigGlobal, .ptrToInt fn] :: entries, m3)
      else .error ("cannot find function: " ++ meth.linkName)

/-- Model of `getTypeMethodSet`: the `<T>$methodset` private constant array,
interned by name; a type with no methods yields a null pointer and creates
no global. -/
def getTypeMethodSet (c : Compiler) (m : Module) (typ : GoType) : Except String (Value × Module) :=
  let gname := c.typeString typ ++ "$methodset"
  match m.namedGlobal gname with
  | some _ => .ok (.gep gname, m)
  | none =>
    let ms := c.methodSet typ
    if ms.length == 0 then
      .ok (.nullPtr, m)
    else
      match methodSetEntries c m ms with
      | .error e => .error e
      | .ok (methods, m1) =>
        .ok (.gep gname,
          m1.addGlobal { gname := gname, isConstant := true, linkage := .privateL,
                         init := some (.arrayV methods) })

/-- The loop of `getInterfaceMethodSet`: one signature global per declared
interface method, in declaration order. -/
def interfaceSignatureList : Module → List Method → List Value × Module
  | m, [] => ([], m)
  | m, meth :: rest =>
      let (sg, m1) := getMethodSignature m meth
      let (sgs, m2) := interfaceSignatureList m1 rest
      (sg :: sgs, m2)

/-- Model of `getInterfaceMethodSet`: the `<I>$interface` private constant
array of signature placeholders, interned by name. -/
def getInterfaceMethodSet (c : Compiler) (m : Module) (typ : GoType) : Value × Module :=
  let gname := c.typeString typ ++ "$interface"
  match m.namedGlobal gname with
  | some _ => (.gep gname, m)
  | none =>
    let (methods, m1) := interfaceSignatureList m (c.interfaceMethods typ)
    (.gep gname,
      m1.addGlobal { gname := gname, isConstant := true, linkage := .privateL,
                     init := some (.arrayV methods) })

/-- Modelled from the spec: `emitPointerPack` (not among the embedded files)
"bit-packs the value into a pointer slot" when it fits and otherwise places
it in collector-owned heap storage; either way `emitPointerUnpack` recovers
the packed values. -/
def emitPointerPack (vals : List Value) : Value := .packed vals

/-- Modelled from the spec: `emitPointerUnpack`, the inverse read of
`emitPointerPack`.  Reading a slot that was not built by a matching pack is
a raw reinterpretation of the slot bits and is modelled as the slot value
itself. -/
def emitPointerUnpack (v : Value) : List Value :=
  match v with
  | .packed vals => vals
  | v => [v]

/-- Model of `parseMakeInterface`: builds the (typecode, value) pair for
boxing `val : typ` into an interface, creating the `typeInInterface:` global
on first request. -/
def parseMakeInterface (c : Compiler) (m : Module) (val : Value) (typ : GoType) :
    Except String (Value × Module) :=
  let itfValue := emitPointerPack [val]
  match getTypeCode m typ with
  | .error e => .error e
  | .ok (tcName, m1) =>
    match getTypeMethodSet c m1 typ with
    | .error e => .error e
    | .ok (msGlobal, m2) =>
      let ciName := "typeInInterface:" ++ tcName
      let m3 :=
        match m2.namedGlobal ciName with
        | some _ => m2
        | none =>
            m2.addGlobal
              { gname := ciName, isConstant := true, linkage := .privateL,
                init := some (.structV [.globalRef tcName, msGlobal]) }
      .ok (.structV [.ptrToInt (.globalRef ciName), itfValue], m3)

/- ===== compiler/func.go ===== -/

/-- The three func-value representations of `funcValueImplementation`. -/
inductive FuncValueImpl where
  | noneImpl | doubleword | switchImpl
deriving DecidableEq

/-- Model of `funcImplementation`: the source condition is literally
`c.GOARCH == "wasm" || true`. -/
def funcImplementation (c : Compiler) : FuncValueImpl :=
  if c.GOARCH == "wasm" || true then .switchImpl else .doubleword

/-- Model of `getFuncSignature`: the `reflect/types.type:<identity>` global
identifying a function signature. -/
def getFuncSignature (m : Module) (sig : GoType) : Except String (Value × Module) :=
  match getTypeCodeName sig with
  | .error e => .error e
  | .ok tn =>
    let gname := "reflect/types.type:" ++ tn
    match m.namedGlobal gname with
    | some _ => .ok (.globalRef gname, m)
    | none => .ok (.globalRef gname,
        m.addGlobal { gname := gname, isConstant := true, linkage := .internalL,
                      init := some .undef })

/-- Model of `createFuncValue`: builds the pair of context and scalar; under
the switch representation the scalar is the address of the interned
`<fn>$withSignature` constant. -/
def createFuncValue (c : Compiler) (m : Module) (funcPtrName : String) (context : Value)
    (sig : GoType) : Except String (Value × Module) :=
  match funcImplementation c with
  | .doubleword => .ok (.structV [context, .funcRef funcPtrName], m)
  | .switchImpl =>
    match getFuncSignature m sig with
    | .error e => .error e
    | .ok (sigGlobal, m1) =>
      let gname := funcPtrName ++ "$withSignature"
      let m2 :=
        match m1.namedGlobal gname with
        | some _ => m1
        | none =>
            m1.addGlobal
              { gname := gname, isConstant := true, linkage := .internalL,
                init := some (.structV [.ptrToInt (.funcRef funcPtrName), sigGlobal]) }
      .ok (.structV [context, .ptrToInt (.globalRef gname)], m2)
  | .noneImpl => .error "unimplemented func value variant"

/-- Model of `parseMakeClosure`: packs the bound variables into the context
and builds the function value; panics on an empty bindings list. -/
def parseMakeClosure (c : Compiler) (m : Module) (fnName : String) (sig : GoType)
    (bindings : List Value) : Except String (Value × Module) :=
  if bindings.length == 0 then
    .error "unexpected: MakeClosure without bound variables"
  else
    let context := emitPointerPack bindings
    createFuncValue c m fnName context sig

/-- The return-type lowering of `getRawFuncType`: void, a single type, or a
literal struct of all result types. -/
def loweredReturnType (c : Compiler) (results : List GoType) : LLVMType :=
  match results with
  | [] => .voidT
  | [r] => c.getLLVMType r
  | rs => .structL "" (rs.map c.getLLVMType)

/-- The receiver lowering of `getRawFuncType`: a receiver whose LLVM type is
the `runtime._interface` struct is passed as `i8*` instead. -/
def loweredReceiverType (c : Compiler) (r : GoType) : LLVMType :=
  let recv := c.getLLVMType r
  if recv.structName == "runtime._interface" then i8ptrType else recv

/-- Model of `getRawFuncType`: lowers a source signature (receiver, params,
results) to the LLVM function pointer type of the extended calling
convention. -/
def getRawFuncType (c : Compiler) (recv : Option GoType) (params results : List GoType) :
    LLVMType :=
  let returnType := loweredReturnType c results
  let recvTypes : List LLVMType :=
    match recv with
    | none => []
    | some r => expandFormalParamType (loweredReceiverType c r)
  let paramTypes :=
    recvTypes ++ (params.map (fun p => expandFormalParamType (c.getLLVMType p))).flatten
  let paramTypes := paramTypes ++ [i8ptrType, i8ptrType]
  .ptr (.funcT returnType paramTypes)

/- ===== helper facts about the module operations ===== -/

theorem expandFormalParamType_ptr (t : LLVMType) : expandFormalParamType (.ptr t) = [.ptr t] := by
  simp [expandFormalParamType]

/-- The wrapper-elision condition of `getInterfaceInvokeWrapper` is
equivalent to the receiver being of pointer kind. -/
theorem elide_cond_iff_ptr (t : LLVMType) :
    (((expandFormalParamType t).length == 1) && t.isPointerKind) = t.isPointerKind := by
  cases t <;> simp [expandFormalParamType, LLVMType.isPointerKind]

theorem getMethodSignature_fst (m : Module) (meth : Method) :
    (getMethodSignature m meth).1 = .globalRef ("func " ++ meth.sigString) := by
  simp only [getMethodSignature]
  cases m.namedGlobal ("func " ++ meth.sigString) <;> simp

theorem getMethodSignature_funcs (m : Module) (meth : Method) :
    (getMethodSignature m meth).2.funcs = m.funcs := by
  simp only [getMethodSignature]
  cases m.namedGlobal ("func " ++ meth.sigString) <;> simp [Module.addGlobal]

theorem getInterfaceInvokeWrapper_elide (c : Compiler) (m : Module) (meth : Method)
    (hnone : m.namedFunction (meth.linkName ++ "$invoke") = none)
    (hptr : (c.getLLVMType meth.recvType).isPointerKind = true) :
    getInterfaceInvokeWrapper c m meth = (.funcRef meth.linkName, m) := by
  have helide := elide_cond_iff_ptr (c.getLLVMType meth.recvType)
  rw [hptr] at helide
  simp only [getInterfaceInvokeWrapper, hnone, hptr, helide, if_pos]

theorem getInterfaceInvokeWrapper_wrap (c : Compiler) (m : Module) (meth : Method)
    (hnone : m.namedFunction (meth.linkName ++ "$invoke") = none)
    (hptr : (c.getLLVMType meth.recvType).isPointerKind = false) :
    getInterfaceInvokeWrapper c m meth =
      (.funcRef (meth.linkName ++ "$invoke"),
       { globals := m.globals,
         funcs := m.funcs ++ [{ fname := meth.linkName ++ "$invoke",
                                linkage := .externalL, unnamedAddr := false }],
         invokeWrappers := m.invokeWrappers ++ [meth] }) := by
  simp only [getInterfaceInvokeWrapper, hnone, hptr, Bool.and_false, Module.addFunction,
    Bool.false_eq_true, if_false]

theorem find?_map_update (l : List FuncDecl) (wname : String)
    (hl : l.find? (fun f => f.fname == wname) = none) (w : FuncDecl) (hw : w.fname = wname) :
    ((l ++ [w]).map (fun f => if f.fname == wname then
        { f with linkage := Linkage.internalL, unnamedAddr := true } else f)).find?
        (fun f => f.fname == wname) =
      some { w with linkage := Linkage.internalL, unnamedAddr := true } := by
  induction l with
  | nil => simp [hw]
  | cons a l ih =>
      have ha : (a.fname == wname) = false := by
        cases hb : (a.fname == wname)
        · rfl
        · simp [List.find?, hb] at hl
      rw [List.find?] at hl
      rw [ha] at hl
      simp only [List.cons_append, List.map_cons]
      rw [if_neg (by simp [ha])]
      rw [List.find?, ha]
      exact ih hl

/-- A small concrete compiler instance, used for witness evaluations; its
receiver lowering is a pointer type. -/
def testCompiler : Compiler :=
  { GOARCH := "wasm"
    typeString := fun _ => "main.T"
    methodSet := fun _ => []
    interfaceMethods := fun _ => []
    getLLVMType := fun _ => i8ptrType
    declaredFunctions := ["main.f"] }

/-- A concrete compiler whose receiver lowering is a two-field struct (a
receiver that does need an invoke wrapper). -/
def testCompilerStruct : Compiler :=
  { testCompiler with getLLVMType := fun _ => .structL "main.big" [.intT 64, .intT 64] }

/-- A concrete method for witness evaluations. -/
def testMethod : Method :=
  { sigString := "Print()", linkName := "main.f", recvType := .pointer (.basic .intK) }

/- ===== C7 ===== -/

/-- C7: for a method whose receiver lowers to a single pointer, no invoke
wrapper is generated: the raw method function is returned, the module gains
no function, and the method-set entry holds the raw function address
directly.  For a receiver of any other kind a wrapper function named
`<linkName>$invoke` is declared and, after its finalization, carries
internal linkage and unnamed address. -/
theorem claim_C7 (c : Compiler) (m : Module) (meth : Method)
    (hnone : m.namedFunction (meth.linkName ++ "$invoke") = none) :
    ((c.getLLVMType meth.recvType).isPointerKind = true →
      getInterfaceInvokeWrapper c m meth = (.funcRef meth.linkName, m) ∧
      (c.declaredFunctions.contains meth.linkName = true →
        ∃ m3, methodSetEntries c m [meth] =
          .ok ([.structV [.globalRef ("func " ++ meth.sigString),
                          .ptrToInt (.funcRef meth.linkName)]], m3) ∧
          m3.funcs = m.funcs)) ∧
    ((c.getLLVMType meth.recvType).isPointerKind = false →
      ∃ m2, getInterfaceInvokeWrapper c m meth = (.funcRef (meth.linkName ++ "$invoke"), m2) ∧
        (createInterfaceInvokeWrapper m2 meth).namedFunction (meth.linkName ++ "$invoke") =
          some { fname := meth.linkName ++ "$invoke", linkage := .internalL,
                 unnamedAddr := true }) := by
  constructor
  · intro hptr
    refine ⟨getInterfaceInvokeWrapper_elide c m meth hnone hptr, fun hdecl => ?_⟩
    have hfuncs := getMethodSignature_funcs m meth
    have hnone1 : (getMethodSignature m meth).2.namedFunction (meth.linkName ++ "$invoke") =
        none := by
      unfold Module.namedFunction at hnone ⊢
      rw [hfuncs]
      exact hnone
    refine ⟨(getMethodSignature m meth).2, ?_, hfuncs⟩
    simp only [methodSetEntries, hdecl, if_pos,
      getInterfaceInvokeWrapper_elide c (getMethodSignature m meth).2 meth hnone1 hptr,
      getMethodSignature_fst]
  · intro hptr
    refine ⟨_, getInterfaceInvokeWrapper_wrap c m meth hnone hptr, ?_⟩
    unfold createInterfaceInvokeWrapper Module.namedFunction
    exact find?_map_update m.funcs (meth.linkName ++ "$invoke") hnone _ rfl

/-- C7 witness: the pointer-receiver case and the struct-receiver case, each
at a concrete method. -/
theorem claim_C7_witness :
    (getInterfaceInvokeWrapper testCompiler emptyModule testMethod =
      (.funcRef "main.f", emptyModule)) ∧
    (∃ m2, getInterfaceInvokeWrapper testCompilerStruct emptyModule testMethod =
      (.funcRef "main.f$invoke", m2) ∧
      (createInterfaceInvokeWrapper m2 testMethod).namedFunction "main.f$invoke" =
        some { fname := "main.f$invoke", linkage := .internalL, unnamedAddr := true }) := by
  constructor
  · exact ((claim_C7 testCompiler emptyModule testMethod rfl).1 rfl).1
  · exact (claim_C7 testCompilerStruct emptyModule testMethod rfl).2 rfl

/- ===== C8 ===== -/

/-- Modelled from the spec: the parameter-type part of the raw signature
lowering of section 4.4 — expanded receiver leaves, then expanded parameter
leaves, then the two trailing pointer parameters (context first, then
parent-task handle). -/
def specRawParams (c : Compiler) (recv : Option GoType) (params : List GoType) :
    List LLVMType :=
  (match recv with
   | none => []
   | some r => expandFormalParamType (loweredReceiverType c r)) ++
  (params.map (fun p => expandFormalParamType (c.getLLVMType p))).flatten ++
  [i8ptrType, i8ptrType]

/-- C8: every lowered source signature is a pointer to a function type whose
parameters are the expanded receiver and parameter leaves followed by
exactly two trailing pointer parameters, the context pointer and then the
parent-task handle. -/
theorem claim_C8 (c : Compiler) (recv : Option GoType) (params results : List GoType) :
    getRawFuncType c recv params results =
      .ptr (.funcT (loweredReturnType c results) (specRawParams c recv params)) ∧
    ∃ front, specRawParams c recv params = front ++ [i8ptrType, i8ptrType] := by
  constructor
  · cases recv <;> simp [getRawFuncType, specRawParams]
  · exact ⟨_, rfl⟩

/- ===== C10 ===== -/

/-- C10: parseMakeClosure panics (aborts) on an empty bindings list, and any
function value it produces has a context packing the bound variables of a
nonempty bindings list, so a captureless function value can never be
produced through the closure-construction path. -/
theorem claim_C10 (c : Compiler) (m : Module) (fnName : String) (sig : GoType)
    (bindings : List Value) :
    (bindings = [] → parseMakeClosure c m fnName sig bindings =
      .error "unexpected: MakeClosure without bound variables") ∧
    (∀ v m2, parseMakeClosure c m fnName sig bindings = .ok (v, m2) →
      bindings ≠ [] ∧ ∃ scalar, v = .structV [emitPointerPack bindings, scalar]) := by
  constructor
  · intro h
    subst h
    simp [parseMakeClosure]
  · intro v m2 hok
    have hne : bindings ≠ [] := by
      intro h
      subst h
      simp [parseMakeClosure] at hok
    refine ⟨hne, ?_⟩
    unfold parseMakeClosure at hok
    rw [if_neg (by simpa using hne)] at hok
    unfold createFuncValue funcImplementation at hok
    simp only [Bool.or_true, if_pos] at hok
    cases hfs : getFuncSignature m sig with
    | error e => rw [hfs] at hok; cases hok
    | ok p =>
        rw [hfs] at hok
        cases p with
        | mk sigGlobal m1 =>
            simp only at hok
            cases hok
            exact ⟨_, rfl⟩

/-- The function value produced by the concrete C10 witness run. -/
def testClosureValue : Value :=
  .structV [.packed [.intConst 9], .ptrToInt (.globalRef "main.f$withSignature")]

/-- The module produced by the concrete C10 witness run. -/
def testClosureModule : Module :=
  { globals := [
      { gname := "reflect/types.type:func:\x7b\x7d\x7b\x7d", isConstant := true,
        linkage := .internalL, init := some .undef },
      { gname := "main.f$withSignature", isConstant := true, linkage := .internalL,
        init := some (.structV [.ptrToInt (.funcRef "main.f"),
          .globalRef "reflect/types.type:func:\x7b\x7d\x7b\x7d"]) }],
    funcs := [], invokeWrappers := [] }

/-- C10 witness: the empty-bindings panic and a successful one-binding run. -/
theorem claim_C10_witness :
    (parseMakeClosure testCompiler emptyModule "main.f" (.signature [] []) [] =
      .error "unexpected: MakeClosure without bound variables") ∧
    ([Value.intConst 9] ≠ ([] : List Value) ∧
      ∃ scalar, testClosureValue = .structV [emitPointerPack [.intConst 9], scalar]) := by
  have hok : parseMakeClosure testCompiler emptyModule "main.f" (.signature [] [])
      [.intConst 9] = .ok (testClosureValue, testClosureModule) := by
    simp [parseMakeClosure, createFuncValue, funcImplementation, getFuncSignature,
      getTypeCodeName, mangleTag, mangleList, Module.namedGlobal, Module.addGlobal,
      emptyModule, emitPointerPack, testCompiler, testClosureValue, testClosureModule]
    rfl
  exact ⟨(claim_C10 testCompiler emptyModule "main.f" (.signature [] []) []).1 rfl,
    (claim_C10 testCompiler emptyModule "main.f" (.signature [] []) [.intConst 9]).2
      testClosureValue testClosureModule hok⟩


/- ===== module growth and interning facts ===== -/

/-- A module only ever grows by appending: `m2` extends `m1`. -/
def Module.Extends (m2 m1 : Module) : Prop :=
  (∃ gs, m2.globals = m1.globals ++ gs) ∧ (∃ fs, m2.funcs = m1.funcs ++ fs) ∧
  (∃ ws, m2.invokeWrappers = m1.invokeWrappers ++ ws)

theorem Module.Extends.refl (m : Module) : m.Extends m :=
  ⟨⟨[], by simp⟩, ⟨[], by simp⟩, ⟨[], by simp⟩⟩

theorem Module.Extends.trans {m3 m2 m1 : Module} (h32 : m3.Extends m2)
    (h21 : m2.Extends m1) : m3.Extends m1 := by
  obtain ⟨⟨g2, hg2⟩, ⟨f2, hf2⟩, ⟨w2, hw2⟩⟩ := h32
  obtain ⟨⟨g1, hg1⟩, ⟨f1, hf1⟩, ⟨w1, hw1⟩⟩ := h21
  exact ⟨⟨g1 ++ g2, by simp [hg2, hg1]⟩, ⟨f1 ++ f2, by simp [hf2, hf1]⟩,
    ⟨w1 ++ w2, by simp [hw2, hw1]⟩⟩

/-- The module contains a global of the given name. -/
def Module.hasGlobalNamed (m : Module) (s : String) : Prop :=
  ∃ g, g ∈ m.globals ∧ g.gname = s

theorem hasGlobalNamed_mono {m2 m1 : Module} (h : m2.Extends m1) {s : String}
    (hh : m1.hasGlobalNamed s) : m2.hasGlobalNamed s := by
  obtain ⟨⟨gs, hgs⟩, _, _⟩ := h
  obtain ⟨g, hg, hn⟩ := hh
  exact ⟨g, by simp [hgs, hg], hn⟩

theorem namedGlobal_isSome_of_has {m : Module} {s : String} (h : m.hasGlobalNamed s) :
    ∃ g, m.namedGlobal s = some g := by
  obtain ⟨g, hg, hn⟩ := h
  have hs : (m.globals.find? (fun g => g.gname == s)).isSome := by
    rw [List.find?_isSome]
    exact ⟨g, hg, by simp [hn]⟩
  obtain ⟨g2, hg2⟩ := Option.isSome_iff_exists.mp hs
  exact ⟨g2, hg2⟩

theorem not_has_of_namedGlobal_none {m : Module} {s : String}
    (h : m.namedGlobal s = none) : ¬ m.hasGlobalNamed s := by
  intro ⟨g, hg, hn⟩
  have := List.find?_eq_none.mp h g hg
  simp [hn] at this

theorem has_of_namedGlobal_some {m : Module} {s : String} {g : GlobalVar}
    (h : m.namedGlobal s = some g) : m.hasGlobalNamed s := by
  have hmem := List.mem_of_find?_eq_some h
  have hp := List.find?_some h
  exact ⟨g, hmem, by simpa using hp⟩

theorem addGlobal_has (m : Module) (g : GlobalVar) :
    (m.addGlobal g).hasGlobalNamed g.gname :=
  ⟨g, by simp [Module.addGlobal], rfl⟩

theorem addGlobal_extends (m : Module) (g : GlobalVar) : (m.addGlobal g).Extends m :=
  ⟨⟨[g], rfl⟩, ⟨[], by simp [Module.addGlobal]⟩, ⟨[], by simp [Module.addGlobal]⟩⟩

theorem getMethodSignature_extends (m : Module) (meth : Method) :
    (getMethodSignature m meth).2.Extends m := by
  simp only [getMethodSignature]
  cases hng : m.namedGlobal ("func " ++ meth.sigString) with
  | none => simpa using addGlobal_extends m _
  | some g => simpa using Module.Extends.refl m

theorem getInterfaceInvokeWrapper_extends (c : Compiler) (m : Module) (meth : Method) :
    (getInterfaceInvokeWrapper c m meth).2.Extends m := by
  simp only [getInterfaceInvokeWrapper]
  cases hnf : m.namedFunction (meth.linkName ++ "$invoke") with
  | some f => simpa using Module.Extends.refl m
  | none =>
      by_cases hc : (((expandFormalParamType (c.getLLVMType meth.recvType)).length == 1) &&
          (c.getLLVMType meth.recvType).isPointerKind) = true
      · simpa [hc] using Module.Extends.refl m
      · simp only [hc, Bool.false_eq_true, if_false, if_neg, not_false_eq_true]
        refine ⟨⟨[], by simp [Module.addFunction]⟩,
          ⟨[{ fname := meth.linkName ++ "$invoke", linkage := .externalL,
              unnamedAddr := false }], by simp [Module.addFunction]⟩, ⟨[meth], by simp [Module.addFunction]⟩⟩

theorem methodSetEntries_extends (c : Compiler) (l : List Method) :
    ∀ (m : Module) (es : List Value) (m1 : Module),
      methodSetEntries c m l = .ok (es, m1) → m1.Extends m := by
  induction l with
  | nil =>
      intro m es m1 h
      simp only [methodSetEntries, Except.ok.injEq, Prod.mk.injEq] at h
      rw [← h.2]
      exact Module.Extends.refl m
  | cons meth rest ih =>
      intro m es m1 h
      simp only [methodSetEntries] at h
      by_cases hd : c.declaredFunctions.contains meth.linkName = true
      · rw [if_pos hd] at h
        cases hrec : methodSetEntries c
            (getInterfaceInvokeWrapper c (getMethodSignature m meth).2 meth).2 rest with
        | error e => rw [hrec] at h; cases h
        | ok p =>
            rw [hrec] at h
            cases p with
            | mk entries m3 =>
                simp only [Except.ok.injEq, Prod.mk.injEq] at h
                rw [← h.2]
                exact ((ih _ _ _ hrec).trans
                  (getInterfaceInvokeWrapper_extends c _ meth)).trans
                  (getMethodSignature_extends m meth)
      · rw [if_neg hd] at h
        cases h

theorem getTypeMethodSet_extends (c : Compiler) (m : Module) (typ : GoType)
    (v : Value) (m1 : Module) (h : getTypeMethodSet c m typ = .ok (v, m1)) :
    m1.Extends m := by
  simp only [getTypeMethodSet] at h
  cases hg : m.namedGlobal (c.typeString typ ++ "$methodset") with
  | some g =>
      rw [hg] at h
      simp only [Except.ok.injEq, Prod.mk.injEq] at h
      rw [← h.2]
      exact Module.Extends.refl m
  | none =>
      rw [hg] at h
      by_cases hms : ((c.methodSet typ).length == 0) = true
      · rw [if_pos hms] at h
        simp only [Except.ok.injEq, Prod.mk.injEq] at h
        rw [← h.2]
        exact Module.Extends.refl m
      · rw [if_neg hms] at h
        cases hrec : methodSetEntries c m (c.methodSet typ) with
        | error e => rw [hrec] at h; cases h
        | ok p =>
            rw [hrec] at h
            cases p with
            | mk entries m2 =>
                simp only [Except.ok.injEq, Prod.mk.injEq] at h
                rw [← h.2]
                exact (addGlobal_extends m2 _).trans (methodSetEntries_extends c _ m _ _ hrec)

/-- After a successful getTypeMethodSet, running it again on any extension of
the result module returns that module unchanged. -/
theorem getTypeMethodSet_stable (c : Compiler) (m : Module) (typ : GoType)
    (v : Value) (m1 : Module) (h : getTypeMethodSet c m typ = .ok (v, m1)) :
    ∀ m2 : Module, m2.Extends m1 → ∃ v2, getTypeMethodSet c m2 typ = .ok (v2, m2) := by
  intro m2 hext
  cases hg2 : m2.namedGlobal (c.typeString typ ++ "$methodset") with
  | some g =>
      exact ⟨.gep (c.typeString typ ++ "$methodset"), by simp only [getTypeMethodSet, hg2]⟩
  | none =>
      have hnot2 := not_has_of_namedGlobal_none hg2
      have hms : ((c.methodSet typ).length == 0) = true := by
        by_contra hms
        simp only [getTypeMethodSet] at h
        cases hg : m.namedGlobal (c.typeString typ ++ "$methodset") with
        | some g0 =>
            rw [hg] at h
            simp only [Except.ok.injEq, Prod.mk.injEq] at h
            exact hnot2 (hasGlobalNamed_mono hext (h.2 ▸ has_of_namedGlobal_some hg))
        | none =>
            rw [hg, if_neg hms] at h
            cases hrec : methodSetEntries c m (c.methodSet typ) with
            | error e => rw [hrec] at h; cases h
            | ok p =>
                rw [hrec] at h
                cases p with
                | mk entries mE =>
                    simp only [Except.ok.injEq, Prod.mk.injEq] at h
                    exact hnot2 (hasGlobalNamed_mono hext (h.2 ▸ addGlobal_has mE _))
      exact ⟨.nullPtr, by simp only [getTypeMethodSet, hg2, hms, if_pos]⟩

/-- getTypeMethodSet is idempotent: a second request returns the existing
global (or again the null pointer) without changing the module. -/
theorem getTypeMethodSet_idem (c : Compiler) (m : Module) (typ : GoType)
    (v : Value) (m1 : Module) (h : getTypeMethodSet c m typ = .ok (v, m1)) :
    getTypeMethodSet c m1 typ = .ok (v, m1) := by
  simp only [getTypeMethodSet] at h ⊢
  cases hg : m.namedGlobal (c.typeString typ ++ "$methodset") with
  | some g =>
      rw [hg] at h
      simp only [Except.ok.injEq, Prod.mk.injEq] at h
      obtain ⟨g2, hg2⟩ := namedGlobal_isSome_of_has (h.2 ▸ has_of_namedGlobal_some hg)
      rw [hg2, ← h.1]
  | none =>
      rw [hg] at h
      by_cases hms : ((c.methodSet typ).length == 0) = true
      · rw [if_pos hms] at h
        simp only [Except.ok.injEq, Prod.mk.injEq] at h
        rw [← h.2, hg, if_pos hms, ← h.1]
      · rw [if_neg hms] at h
        cases hrec : methodSetEntries c m (c.methodSet typ) with
        | error e => rw [hrec] at h; cases h
        | ok p =>
            rw [hrec] at h
            cases p with
            | mk entries mE =>
                simp only [Except.ok.injEq, Prod.mk.injEq] at h
                obtain ⟨g2, hg2⟩ := namedGlobal_isSome_of_has (h.2 ▸ addGlobal_has mE _)
                rw [hg2, ← h.1]

/-- getInterfaceMethodSet is idempotent: a second request returns the
existing `$interface` global without changing the module. -/
theorem getInterfaceMethodSet_idem (c : Compiler) (m : Module) (typ : GoType)
    (v : Value) (m1 : Module) (h : getInterfaceMethodSet c m typ = (v, m1)) :
    getInterfaceMethodSet c m1 typ = (v, m1) := by
  simp only [getInterfaceMethodSet] at h ⊢
  cases hg : m.namedGlobal (c.typeString typ ++ "$interface") with
  | some g =>
      rw [hg] at h
      simp only [Prod.mk.injEq] at h
      obtain ⟨g2, hg2⟩ := namedGlobal_isSome_of_has (h.2 ▸ has_of_namedGlobal_some hg)
      rw [hg2, ← h.1]
  | none =>
      rw [hg] at h
      simp only [Prod.mk.injEq] at h
      obtain ⟨g2, hg2⟩ := namedGlobal_isSome_of_has
        (h.2 ▸ addGlobal_has (interfaceSignatureList m (c.interfaceMethods typ)).2 _)
      rw [hg2, ← h.1]

theorem getTypeCode_ok_spec (m : Module) (typ : GoType) (tc : String) (mA : Module)
    (h : getTypeCode m typ = .ok (tc, mA)) :
    ∃ tn, getTypeCodeName typ = .ok tn ∧ tc = "type:" ++ tn ∧ mA.Extends m ∧
      mA.hasGlobalNamed tc := by
  simp only [getTypeCode] at h
  cases hn : getTypeCodeName typ with
  | error e => rw [hn] at h; cases h
  | ok tn =>
      rw [hn] at h
      dsimp only at h
      refine ⟨tn, rfl, ?_⟩
      cases hg : m.namedGlobal ("type:" ++ tn) with
      | some g =>
          rw [hg] at h
          simp only [Except.ok.injEq, Prod.mk.injEq] at h
          exact ⟨h.1.symm, h.2 ▸ Module.Extends.refl m, h.1 ▸ h.2 ▸ has_of_namedGlobal_some hg⟩
      | none =>
          rw [hg] at h
          simp only [Except.ok.injEq, Prod.mk.injEq] at h
          exact ⟨h.1.symm, h.2 ▸ addGlobal_extends m _, h.1 ▸ h.2 ▸ addGlobal_has m _⟩

theorem getTypeCode_found (m : Module) (typ : GoType) (tn : String)
    (hn : getTypeCodeName typ = .ok tn) (hh : m.hasGlobalNamed ("type:" ++ tn)) :
    getTypeCode m typ = .ok ("type:" ++ tn, m) := by
  obtain ⟨g, hg⟩ := namedGlobal_isSome_of_has hh
  simp only [getTypeCode, hn, hg]

/- ===== C5 ===== -/

/-- C5: boxing a concrete type twice refers to the same `typeInInterface:`
global, the second boxing leaves the module unchanged, and the method-set
and interface-shape emissions are idempotent (a second request returns the
existing result without creating a duplicate). -/
theorem claim_C5 (c : Compiler) (m : Module) (v1 v2 : Value) (typ : GoType)
    (itf1 : Value) (m1 : Module)
    (hbox : parseMakeInterface c m v1 typ = .ok (itf1, m1)) :
    (∃ tn, getTypeCodeName typ = .ok tn ∧
      itf1 = .structV [.ptrToInt (.globalRef ("typeInInterface:" ++ ("type:" ++ tn))),
                       .packed [v1]] ∧
      parseMakeInterface c m1 v2 typ =
        .ok (.structV [.ptrToInt (.globalRef ("typeInInterface:" ++ ("type:" ++ tn))),
                       .packed [v2]], m1)) ∧
    (∀ msv mms, getTypeMethodSet c m typ = .ok (msv, mms) →
      getTypeMethodSet c mms typ = .ok (msv, mms)) ∧
    (∀ isv ims, getInterfaceMethodSet c m typ = (isv, ims) →
      getInterfaceMethodSet c ims typ = (isv, ims)) := by
  refine ⟨?_, fun msv mms h => getTypeMethodSet_idem c m typ msv mms h,
    fun isv ims h => getInterfaceMethodSet_idem c m typ isv ims h⟩
  simp only [parseMakeInterface] at hbox
  cases htc : getTypeCode m typ with
  | error e => rw [htc] at hbox; cases hbox
  | ok pA =>
      rw [htc] at hbox
      cases pA with
      | mk tc mA =>
          dsimp only at hbox
          obtain ⟨tn, htn, htcname, hAext, hAhas⟩ := getTypeCode_ok_spec m typ tc mA htc
          cases hms : getTypeMethodSet c mA typ with
          | error e => rw [hms] at hbox; cases hbox
          | ok pB =>
              rw [hms] at hbox
              cases pB with
              | mk msv mB =>
                  dsimp only at hbox
                  have hBext := getTypeMethodSet_extends c mA typ msv mB hms
                  subst htcname
                  simp only [Except.ok.injEq, Prod.mk.injEq] at hbox
                  obtain ⟨hitf, hm1⟩ := hbox
                  have hm1ext : m1.Extends mB ∧
                      m1.hasGlobalNamed ("typeInInterface:" ++ ("type:" ++ tn)) := by
                    cases hci : mB.namedGlobal ("typeInInterface:" ++ ("type:" ++ tn)) with
                    | some g =>
                        rw [hci] at hm1
                        exact ⟨hm1 ▸ Module.Extends.refl mB,
                          hm1 ▸ has_of_namedGlobal_some hci⟩
                    | none =>
                        rw [hci] at hm1
                        exact ⟨hm1 ▸ addGlobal_extends mB _, hm1 ▸ addGlobal_has mB _⟩
                  obtain ⟨hm1B, hm1has⟩ := hm1ext
                  have htc2 : getTypeCode m1 typ = .ok ("type:" ++ tn, m1) :=
                    getTypeCode_found m1 typ tn htn
                      (hasGlobalNamed_mono hm1B (hasGlobalNamed_mono hBext hAhas))
                  obtain ⟨v2x, hms2⟩ := getTypeMethodSet_stable c mA typ msv mB hms m1 hm1B
                  obtain ⟨gci, hci2⟩ := namedGlobal_isSome_of_has hm1has
                  refine ⟨tn, htn, hitf.symm, ?_⟩
                  simp only [parseMakeInterface, htc2, hms2, hci2, emitPointerPack]

/-- The module produced by the concrete C5 witness boxing: the placeholder
typecode global and the typeInInterface descriptor for basic:int8. -/
def testBoxModule : Module :=
  { globals := [
      { gname := "type:basic:int8", isConstant := true, linkage := .externalL, init := none },
      { gname := "typeInInterface:type:basic:int8", isConstant := true, linkage := .privateL,
        init := some (.structV [.globalRef "type:basic:int8", .nullPtr]) }],
    funcs := [], invokeWrappers := [] }

/-- C5 witness: boxing an 8-bit integer twice in the same module reuses the
same typeInInterface global and leaves the module unchanged. -/
theorem claim_C5_witness :
    (parseMakeInterface testCompiler emptyModule (.intConst 5) (.basic .int8) =
      .ok (.structV [.ptrToInt (.globalRef "typeInInterface:type:basic:int8"),
                     .packed [.intConst 5]], testBoxModule)) ∧
    (∃ tn, getTypeCodeName (GoType.basic .int8) = .ok tn ∧
      Value.structV [.ptrToInt (.globalRef "typeInInterface:type:basic:int8"),
                     .packed [.intConst 5]] =
        .structV [.ptrToInt (.globalRef ("typeInInterface:" ++ ("type:" ++ tn))),
                  .packed [.intConst 5]] ∧
      parseMakeInterface testCompiler testBoxModule (.intConst 7) (.basic .int8) =
        .ok (.structV [.ptrToInt (.globalRef ("typeInInterface:" ++ ("type:" ++ tn))),
                       .packed [.intConst 7]], testBoxModule)) := by
  have hbox : parseMakeInterface testCompiler emptyModule (.intConst 5) (.basic .int8) =
      .ok (.structV [.ptrToInt (.globalRef "typeInInterface:type:basic:int8"),
                     .packed [.intConst 5]], testBoxModule) := by
    simp [parseMakeInterface, getTypeCode, getTypeCodeName, mangleTag, basicKindName,
      getTypeMethodSet, testCompiler, Module.namedGlobal, Module.addGlobal, emptyModule,
      emitPointerPack, testBoxModule]
  exact ⟨hbox, (claim_C5 testCompiler emptyModule _ (.intConst 7) _ _ _ hbox).1⟩


/- ===== compiler/defer.go ===== -/

/-- Classified deferred calls, as distinguished by emitDefer: a direct call
to a known function, an interface invoke (classified by the fully qualified
method name), an immediately applied closure (classified by the underlying
function), or an unsupported callee form. -/
inductive DeferCall where
  | static (callee : String) (args : List Value)
  | invoke (methodName : String) (itf : Value) (args : List Value)
  | closure (fnName : String) (closureVal : Value) (args : List Value)
  | unsupported

/-- Entries of the per-function allDeferFuncs table, as appended by emitDefer
on first interning of each callback kind: the callee function, the stored
invoke call (with the argument count of its CallCommon), or the closure
function. -/
inductive DeferEntry where
  | static (callee : String)
  | invoke (methodName : String) (numArgs : Nat)
  | closure (fnName : String)
deriving DecidableEq

/-- A defer frame as stored by emitDefer: the callback index and the field
values following the callback and next-pointer header, in field order. -/
structure StoredFrame where
  callback : Nat
  fields : List Value

/-- The per-function defer state of the Frame: the three intern maps, the
allDeferFuncs table, the defer chain (head frame first; the head pointer in
the entry-block slot is null exactly when the list is empty), and the
accumulated compile errors (c.addError). -/
structure DFrame where
  deferFuncs : List (String × Nat)
  deferInvokeFuncs : List (String × Nat)
  deferClosureFuncs : List (String × Nat)
  allDeferFuncs : List DeferEntry
  deferChain : List StoredFrame
  errors : List String

/-- Model of deferInitFunc: fresh intern maps and a null head pointer. -/
def deferInitFunc : DFrame :=
  { deferFuncs := [], deferInvokeFuncs := [], deferClosureFuncs := [],
    allDeferFuncs := [], deferChain := [], errors := [] }

/-- Map read of the intern maps (Go map indexing; each key is written at
most once, so order is irrelevant). -/
def internLookup : List (String × Nat) → String → Option Nat
  | [], _ => none
  | (k, i) :: rest, s => if k == s then some i else internLookup rest s

/-- Signature metadata consumed by the model: parameter counts of functions
(callback.Params and fn.Signature.Params()) and the arity of interface
methods (which fixes the CallCommon argument count of every invoke of that
method). -/
structure DeferCtx where
  funcParams : String → Nat
  methodArity : String → Nat

/-- Model of emitDefer: classify the deferred call, intern its callback
index (appending a new allDeferFuncs entry on first sight), build the frame
holding receiver and arguments (or arguments and context), and push it at
the head of the chain.  An unsupported callee form records a compile error
and leaves the chain unchanged. -/
def emitDefer (f : DFrame) (call : DeferCall) : DFrame :=
  match call with
  | .invoke methodName itf args =>
      let receiver := Value.extractV itf 1
      match internLookup f.deferInvokeFuncs methodName with
      | some idx =>
          { f with deferChain :=
              { callback := idx, fields := receiver :: args } :: f.deferChain }
      | none =>
          { f with
            deferInvokeFuncs := f.deferInvokeFuncs ++ [(methodName, f.allDeferFuncs.length)],
            allDeferFuncs := f.allDeferFuncs ++ [.invoke methodName args.length],
            deferChain :=
              { callback := f.allDeferFuncs.length,
                fields := receiver :: args } :: f.deferChain }
  | .static callee args =>
      match internLookup f.deferFuncs callee with
      | some idx =>
          { f with deferChain :=
              { callback := idx, fields := args } :: f.deferChain }
      | none =>
          { f with
            deferFuncs := f.deferFuncs ++ [(callee, f.allDeferFuncs.length)],
            allDeferFuncs := f.allDeferFuncs ++ [.static callee],
            deferChain :=
              { callback := f.allDeferFuncs.length, fields := args } :: f.deferChain }
  | .closure fnName clo args =>
      let context := Value.extractV clo 0
      match internLookup f.deferClosureFuncs fnName with
      | some idx =>
          { f with deferChain :=
              { callback := idx, fields := args ++ [context] } :: f.deferChain }
      | none =>
          { f with
            deferClosureFuncs := f.deferClosureFuncs ++ [(fnName, f.allDeferFuncs.length)],
            allDeferFuncs := f.allDeferFuncs ++ [.closure fnName],
            deferChain :=
              { callback := f.allDeferFuncs.length,
                fields := args ++ [context] } :: f.deferChain }
  | .unsupported =>
      { f with errors := f.errors ++ ["todo: defer on uncommon function call type"] }

/-- Reading the first `n` value fields back out of a frame in field order
(the GEP and load loops of the dispatcher arms). -/
def readFields : List Value → Nat → Option (List Value)
  | _, 0 => some []
  | [], _ + 1 => none
  | v :: vs, n + 1 => (readFields vs n).map (v :: ·)

/-- One deferred invocation as performed by a dispatcher arm: the callee
(direct function or interface method) and the forwarded parameters. -/
inductive Invocation where
  | call (fnName : String) (params : List Value)
  | invokeCall (methodName : String) (params : List Value)

/-- One switch arm of the dispatcher: reconstruct the frame layout implied
by the table entry, read the stored fields back out, append the undef
context parameter (direct and invoke calls) and the undef parent handle,
and perform the call.  A callback index outside the table falls into the
unreachable default arm. -/
def dispatchFrame (ctx : DeferCtx) (table : List DeferEntry) (fr : StoredFrame) :
    Option Invocation :=
  match table.get? fr.callback with
  | none => none
  | some (.static callee) =>
      (readFields fr.fields (ctx.funcParams callee)).map
        (fun ps => .call callee (ps ++ [.undef, .undef]))
  | some (.invoke methodName numArgs) =>
      (readFields fr.fields (1 + numArgs)).map
        (fun ps => .invokeCall methodName (ps ++ [.undef, .undef]))
  | some (.closure fnName) =>
      (readFields fr.fields (ctx.funcParams fnName + 1)).map
        (fun ps => .call fnName (ps ++ [.undef]))

/-- The loop of emitRunDefers: load the head; while it is not null, store
the tail back into the head slot, dispatch the frame, and continue.
Returns the invocations in execution order together with the value of the
head pointer when the loop exits. -/
def runDefersLoop (ctx : DeferCtx) (table : List DeferEntry) :
    List StoredFrame → Option (List Invocation × List StoredFrame)
  | [] => some ([], [])
  | fr :: rest =>
      match dispatchFrame ctx table fr with
      | none => none
      | some inv =>
          match runDefersLoop ctx table rest with
          | none => none
          | some (invs, final) => some (inv :: invs, final)

/-- Model of emitRunDefers at the semantic level: run the dispatcher loop
over the current chain, leaving the final head pointer in the frame. -/
def emitRunDefers (ctx : DeferCtx) (f : DFrame) : Option (List Invocation × DFrame) :=
  match runDefersLoop ctx f.allDeferFuncs f.deferChain with
  | none => none
  | some (invs, final) => some (invs, { f with deferChain := final })

/-- Front-end typing of a deferred call: the argument list matches the
callee signature and the call has a supported form. -/
def wfCall (ctx : DeferCtx) : DeferCall → Prop
  | .static callee args => args.length = ctx.funcParams callee
  | .invoke methodName _ args => args.length = ctx.methodArity methodName
  | .closure fnName _ args => args.length = ctx.funcParams fnName
  | .unsupported => False

/-- The invocation a deferred call is supposed to produce when the
dispatcher reaches its frame. -/
def semInvocation : DeferCall → Invocation
  | .static callee args => .call callee (args ++ [.undef, .undef])
  | .invoke methodName itf args =>
      .invokeCall methodName (Value.extractV itf 1 :: args ++ [.undef, .undef])
  | .closure fnName clo args => .call fnName (args ++ [Value.extractV clo 0, .undef])
  | .unsupported => .call "" []

/-- The intern maps agree with the allDeferFuncs table. -/
def tableOK (ctx : DeferCtx) (f : DFrame) : Prop :=
  (∀ k i, internLookup f.deferFuncs k = some i →
    f.allDeferFuncs.get? i = some (.static k)) ∧
  (∀ k i, internLookup f.deferInvokeFuncs k = some i →
    f.allDeferFuncs.get? i = some (.invoke k (ctx.methodArity k))) ∧
  (∀ k i, internLookup f.deferClosureFuncs k = some i →
    f.allDeferFuncs.get? i = some (.closure k))

/-- Every frame of the chain dispatches, producing the given invocations in
chain order. -/
def chainResolves (ctx : DeferCtx) (f : DFrame) (pending : List Invocation) : Prop :=
  f.deferChain.mapM (dispatchFrame ctx f.allDeferFuncs) = some pending

theorem internLookup_append_of_some (l : List (String × Nat)) (l2 : List (String × Nat))
    (s : String) (i : Nat) (h : internLookup l s = some i) :
    internLookup (l ++ l2) s = some i := by
  induction l with
  | nil => cases h
  | cons p rest ih =>
      cases p with
      | mk k j =>
          simp only [internLookup] at h
          by_cases hk : (k == s) = true
          · rw [if_pos hk] at h
            simp only [List.cons_append, internLookup]
            rw [if_pos hk]
            exact h
          · rw [if_neg hk] at h
            simp only [List.cons_append, internLookup]
            rw [if_neg hk]
            exact ih h

theorem internLookup_append_self (l : List (String × Nat)) (k : String) (i : Nat)
    (h : internLookup l k = none) : internLookup (l ++ [(k, i)]) k = some i := by
  induction l with
  | nil => simp [internLookup]
  | cons p rest ih =>
      cases p with
      | mk k2 j =>
          simp only [internLookup] at h
          by_cases hk : (k2 == k) = true
          · rw [if_pos hk] at h
            cases h
          · rw [if_neg hk] at h
            simp only [List.cons_append, internLookup]
            rw [if_neg hk]
            exact ih h

theorem get?_append_left {α : Type} (l l2 : List α) (i : Nat) (e : α)
    (h : l.get? i = some e) : (l ++ l2).get? i = some e := by
  induction l generalizing i with
  | nil => cases h
  | cons a rest ih =>
      cases i with
      | zero => simpa using h
      | succ n =>
          simp only [List.get?] at h
          simpa using ih n h

theorem get?_append_length {α : Type} (l : List α) (e : α) :
    (l ++ [e]).get? l.length = some e := by
  induction l with
  | nil => rfl
  | cons a rest ih =>
      simp only [List.cons_append, List.length_cons, List.get?_cons_succ]
      exact ih

theorem readFields_exact (l : List Value) : readFields l l.length = some l := by
  induction l with
  | nil => rfl
  | cons v vs ih => simp [readFields, ih]

/-- Dispatching is stable under appending new table entries. -/
theorem dispatchFrame_extend (ctx : DeferCtx) (table : List DeferEntry)
    (e : DeferEntry) (fr : StoredFrame) (inv : Invocation)
    (h : dispatchFrame ctx table fr = some inv) :
    dispatchFrame ctx (table ++ [e]) fr = some inv := by
  simp only [dispatchFrame] at h ⊢
  cases hg : table.get? fr.callback with
  | none => rw [hg] at h; cases h
  | some entry =>
      rw [hg] at h
      rw [get?_append_left table [e] fr.callback entry hg]
      exact h

theorem mapM_dispatch_extend (ctx : DeferCtx) (table : List DeferEntry) (e : DeferEntry)
    (chain : List StoredFrame) (pending : List Invocation)
    (h : chain.mapM (dispatchFrame ctx table) = some pending) :
    chain.mapM (dispatchFrame ctx (table ++ [e])) = some pending := by
  induction chain generalizing pending with
  | nil => exact h
  | cons fr rest ih =>
      rw [List.mapM_cons] at h ⊢
      cases hd : dispatchFrame ctx table fr with
      | none => rw [hd] at h; cases h
      | some inv =>
          rw [hd] at h
          cases hr : rest.mapM (dispatchFrame ctx table) with
          | none => rw [hr] at h; cases h
          | some invs =>
              rw [hr] at h
              rw [dispatchFrame_extend ctx table e fr inv hd, ih invs hr]
              exact h

theorem internLookup_append_elim (l : List (String × Nat)) (k0 : String) (i0 : Nat)
    (k : String) (i : Nat) (h : internLookup (l ++ [(k0, i0)]) k = some i) :
    internLookup l k = some i ∨ (internLookup l k = none ∧ k0 = k ∧ i0 = i) := by
  induction l with
  | nil =>
      simp only [List.nil_append, internLookup] at h
      by_cases hk : (k0 == k) = true
      · rw [if_pos hk] at h
        right
        exact ⟨rfl, by simpa using hk, by cases h; rfl⟩
      · rw [if_neg hk] at h
        cases h
  | cons p rest ih =>
      cases p with
      | mk k2 j =>
          simp only [List.cons_append, internLookup] at h ⊢
          by_cases hk : (k2 == k) = true
          · rw [if_pos hk] at h ⊢
            exact .inl h
          · rw [if_neg hk] at h ⊢
            rcases ih h with h1 | h2
            · exact .inl h1
            · exact .inr h2

theorem dispatch_static (ctx : DeferCtx) (table : List DeferEntry) (idx : Nat)
    (callee : String) (args : List Value)
    (hget : table.get? idx = some (.static callee))
    (hlen : args.length = ctx.funcParams callee) :
    dispatchFrame ctx table { callback := idx, fields := args } =
      some (.call callee (args ++ [.undef, .undef])) := by
  simp only [dispatchFrame, hget]
  rw [← hlen, readFields_exact]
  rfl

theorem dispatch_invoke (ctx : DeferCtx) (table : List DeferEntry) (idx : Nat)
    (methodName : String) (r : Value) (args : List Value)
    (hget : table.get? idx = some (.invoke methodName args.length)) :
    dispatchFrame ctx table { callback := idx, fields := r :: args } =
      some (.invokeCall methodName (r :: (args ++ [.undef, .undef]))) := by
  simp only [dispatchFrame, hget]
  have hc : 1 + args.length = (r :: args).length := by
    simp [Nat.add_comm]
  rw [hc, readFields_exact]
  rfl

theorem dispatch_closure (ctx : DeferCtx) (table : List DeferEntry) (idx : Nat)
    (fnName : String) (args : List Value) (context : Value)
    (hget : table.get? idx = some (.closure fnName))
    (hlen : args.length = ctx.funcParams fnName) :
    dispatchFrame ctx table { callback := idx, fields := args ++ [context] } =
      some (.call fnName (args ++ [context, .undef])) := by
  simp only [dispatchFrame, hget]
  have hc : ctx.funcParams fnName + 1 = (args ++ [context]).length := by
    simp [← hlen]
  rw [hc, readFields_exact]
  simp

/-- Invariant preservation for one emitDefer of a wellformed supported call:
the intern maps stay consistent with the table and the new frame dispatches
to exactly the intended invocation, ahead of the previously pending ones. -/
theorem emitDefer_step (ctx : DeferCtx) (f : DFrame) (call : DeferCall)
    (pending : List Invocation) (hwf : wfCall ctx call) (htab : tableOK ctx f)
    (hchain : chainResolves ctx f pending) :
    tableOK ctx (emitDefer f call) ∧
    chainResolves ctx (emitDefer f call) (semInvocation call :: pending) := by
  obtain ⟨htabS, htabI, htabC⟩ := htab
  simp only [chainResolves] at hchain
  cases call with
  | static callee args =>
      simp only [wfCall] at hwf
      simp only [emitDefer]
      cases hl : internLookup f.deferFuncs callee with
      | some idx =>
          refine ⟨⟨htabS, htabI, htabC⟩, ?_⟩
          simp only [chainResolves, List.mapM_cons,
            dispatch_static ctx f.allDeferFuncs idx callee args (htabS callee idx hl) hwf,
            hchain, semInvocation]
          rfl
      | none =>
          constructor
          · refine ⟨?_, ?_, ?_⟩
            · intro k i h
              rcases internLookup_append_elim f.deferFuncs callee f.allDeferFuncs.length
                  k i h with h1 | ⟨_, hk, hi⟩
              · exact get?_append_left _ _ _ _ (htabS k i h1)
              · rw [← hi, ← hk]
                exact get?_append_length f.allDeferFuncs _
            · intro k i h
              exact get?_append_left _ _ _ _ (htabI k i h)
            · intro k i h
              exact get?_append_left _ _ _ _ (htabC k i h)
          · simp only [chainResolves, List.mapM_cons,
              dispatch_static ctx (f.allDeferFuncs ++ [.static callee])
                f.allDeferFuncs.length callee args
                (get?_append_length f.allDeferFuncs _) hwf,
              mapM_dispatch_extend ctx f.allDeferFuncs (.static callee)
                f.deferChain pending hchain,
              semInvocation]
            rfl
  | invoke methodName itf args =>
      simp only [wfCall] at hwf
      simp only [emitDefer]
      cases hl : internLookup f.deferInvokeFuncs methodName with
      | some idx =>
          refine ⟨⟨htabS, htabI, htabC⟩, ?_⟩
          have hget := htabI methodName idx hl
          rw [← hwf] at hget
          simp only [chainResolves, List.mapM_cons,
            dispatch_invoke ctx f.allDeferFuncs idx methodName (Value.extractV itf 1) args hget,
            hchain, semInvocation]
          rfl
      | none =>
          constructor
          · refine ⟨?_, ?_, ?_⟩
            · intro k i h
              exact get?_append_left _ _ _ _ (htabS k i h)
            · intro k i h
              rcases internLookup_append_elim f.deferInvokeFuncs methodName
                  f.allDeferFuncs.length k i h with h1 | ⟨_, hk, hi⟩
              · exact get?_append_left _ _ _ _ (htabI k i h1)
              · rw [← hi, ← hk, ← hwf]
                exact get?_append_length f.allDeferFuncs _
            · intro k i h
              exact get?_append_left _ _ _ _ (htabC k i h)
          · simp only [chainResolves, List.mapM_cons,
              dispatch_invoke ctx (f.allDeferFuncs ++ [.invoke methodName args.length])
                f.allDeferFuncs.length methodName (Value.extractV itf 1) args
                (get?_append_length f.allDeferFuncs _),
              mapM_dispatch_extend ctx f.allDeferFuncs (.invoke methodName args.length)
                f.deferChain pending hchain,
              semInvocation]
            rfl
  | closure fnName clo args =>
      simp only [wfCall] at hwf
      simp only [emitDefer]
      cases hl : internLookup f.deferClosureFuncs fnName with
      | some idx =>
          refine ⟨⟨htabS, htabI, htabC⟩, ?_⟩
          simp only [chainResolves, List.mapM_cons,
            dispatch_closure ctx f.allDeferFuncs idx fnName args (Value.extractV clo 0)
              (htabC fnName idx hl) hwf,
            hchain, semInvocation]
          rfl
      | none =>
          constructor
          · refine ⟨?_, ?_, ?_⟩
            · intro k i h
              exact get?_append_left _ _ _ _ (htabS k i h)
            · intro k i h
              exact get?_append_left _ _ _ _ (htabI k i h)
            · intro k i h
              rcases internLookup_append_elim f.deferClosureFuncs fnName
                  f.allDeferFuncs.length k i h with h1 | ⟨_, hk, hi⟩
              · exact get?_append_left _ _ _ _ (htabC k i h1)
              · rw [← hi, ← hk]
                exact get?_append_length f.allDeferFuncs _
          · simp only [chainResolves, List.mapM_cons,
              dispatch_closure ctx (f.allDeferFuncs ++ [.closure fnName])
                f.allDeferFuncs.length fnName args (Value.extractV clo 0)
                (get?_append_length f.allDeferFuncs _) hwf,
              mapM_dispatch_extend ctx f.allDeferFuncs (.closure fnName)
                f.deferChain pending hchain,
              semInvocation]
            rfl
  | unsupported => cases hwf

/-- Folding emitDefer over wellformed supported calls keeps the invariants,
and leaves the chain resolving to the reversed invocation list. -/
theorem emitDefers_resolve (ctx : DeferCtx) (calls : List DeferCall) :
    ∀ (f : DFrame) (pending : List Invocation),
      (∀ call ∈ calls, wfCall ctx call) → tableOK ctx f → chainResolves ctx f pending →
      tableOK ctx (calls.foldl emitDefer f) ∧
      chainResolves ctx (calls.foldl emitDefer f)
        (calls.reverse.map semInvocation ++ pending) := by
  induction calls with
  | nil =>
      intro f pending _ htab hchain
      simpa using ⟨htab, hchain⟩
  | cons call rest ih =>
      intro f pending hwf htab hchain
      obtain ⟨htab2, hchain2⟩ := emitDefer_step ctx f call pending
        (hwf call (by simp)) htab hchain
      have hrec := ih (emitDefer f call) (semInvocation call :: pending)
        (fun c hc => hwf c (by simp [hc])) htab2 hchain2
      simpa [List.append_assoc] using hrec

theorem runDefersLoop_of_resolves (ctx : DeferCtx) (table : List DeferEntry)
    (chain : List StoredFrame) :
    ∀ invs, chain.mapM (dispatchFrame ctx table) = some invs →
      runDefersLoop ctx table chain = some (invs, []) := by
  induction chain with
  | nil =>
      intro invs h
      simp only [List.mapM_nil] at h
      cases h
      rfl
  | cons fr rest ih =>
      intro invs h
      rw [List.mapM_cons] at h
      cases hd : dispatchFrame ctx table fr with
      | none => rw [hd] at h; simp at h
      | some inv =>
          rw [hd] at h
          cases hr : rest.mapM (dispatchFrame ctx table) with
          | none => rw [hr] at h; simp at h
          | some invs2 =>
              rw [hr] at h
              simp only [Option.bind_some, Option.pure_def, Option.bind_eq_bind,
                Option.some_bind] at h
              cases h
              simp only [runDefersLoop, hd, ih invs2 hr]

/- ===== C3 ===== -/

/-- C3: for defers d1, d2, d3 registered in that order from a fresh defer
state, the emitted epilogue dispatcher invokes the deferred calls in strict
LIFO order d3, d2, d1, and the head-of-chain pointer is null when control
leaves the dispatcher. -/
theorem claim_C3 (ctx : DeferCtx) (d1 d2 d3 : DeferCall)
    (h1 : wfCall ctx d1) (h2 : wfCall ctx d2) (h3 : wfCall ctx d3) :
    ∃ final,
      emitRunDefers ctx (emitDefer (emitDefer (emitDefer deferInitFunc d1) d2) d3) =
        some ([semInvocation d3, semInvocation d2, semInvocation d1], final) ∧
      final.deferChain = [] := by
  have hinit_tab : tableOK ctx deferInitFunc := by
    refine ⟨?_, ?_, ?_⟩ <;> intro k i h <;> simp [internLookup, deferInitFunc] at h
  have hinit_chain : chainResolves ctx deferInitFunc [] := rfl
  have hres := emitDefers_resolve ctx [d1, d2, d3] deferInitFunc []
    (by
      intro c hc
      simp only [List.mem_cons, List.not_mem_nil, or_false] at hc
      rcases hc with rfl | rfl | rfl <;> assumption)
    hinit_tab hinit_chain
  obtain ⟨htab, hchain⟩ := hres
  simp only [chainResolves] at hchain
  have hloop := runDefersLoop_of_resolves ctx _ _ _ hchain
  have hfold : List.foldl emitDefer deferInitFunc [d1, d2, d3] =
      emitDefer (emitDefer (emitDefer deferInitFunc d1) d2) d3 := rfl
  rw [hfold] at hloop
  refine ⟨{ emitDefer (emitDefer (emitDefer deferInitFunc d1) d2) d3 with deferChain := [] },
    ?_, rfl⟩
  simp only [emitRunDefers, hloop]
  rfl

/-- The concrete signature metadata for the C3 witness. -/
def testDeferCtx : DeferCtx :=
  { funcParams := fun s => if s == "main.B" then 1 else 0
    methodArity := fun _ => 0 }

/-- C3 witness: defer A(), defer B(7), defer C (a closure capturing 9) from
a fresh state run as C, then B, then A, with an empty chain on exit. -/
theorem claim_C3_witness :
    ∃ final,
      emitRunDefers testDeferCtx
        (emitDefer (emitDefer (emitDefer deferInitFunc (.static "main.A" []))
            (.static "main.B" [.intConst 7]))
          (.closure "main.C" (.structV [.packed [.intConst 9], .undef]) [])) =
        some ([semInvocation (.closure "main.C" (.structV [.packed [.intConst 9], .undef]) []),
               semInvocation (.static "main.B" [.intConst 7]),
               semInvocation (.static "main.A" [])], final) ∧
      final.deferChain = [] :=
  claim_C3 testDeferCtx _ _ _
    (by simp [wfCall, testDeferCtx])
    (by simp [wfCall, testDeferCtx])
    (by simp [wfCall, testDeferCtx])


/- ===== parseTypeAssert: emission order and failure-path semantics ===== -/

/-- The instructions emitted by parseTypeAssert, abstracted by kind. -/
inductive AInstr where
  | extractTypecode         -- CreateExtractValue itf 0 "interface.type"
  | callTypeAssert          -- createRuntimeCall "typeAssert" (concrete asserted type)
  | callInterfaceImplements -- createRuntimeCall "interfaceImplements"
  | condBr                  -- CreateCondBr commaOk okBlock nextBlock
  | extractValueSlot        -- CreateExtractValue itf 1 "typeassert.value.ptr"
  | pointerUnpack           -- emitPointerUnpack of the value slot
  | brNext                  -- CreateBr nextBlock
  | phi                     -- CreatePHI "typeassert.value"
  | insertValue             -- CreateInsertValue (comma-ok tuple building)
  | callInterfaceTypeAssert -- createRuntimeCall "interfaceTypeAssert" (trap)
deriving DecidableEq

/-- The three basic blocks used by parseTypeAssert: the current block, the
typeassert.ok block, and the typeassert.next block. -/
inductive ABlock where
  | entry | okB | nextB
deriving DecidableEq

/-- Model of parseTypeAssert as an emission trace: the emitted instructions
in builder order, each tagged with the block receiving it.  Mirrors the
source order: the typecode extraction and the runtime check go into the
current block, then the conditional branch terminates it; only then is the
ok block filled (for a concrete asserted type it alone holds the unboxing
extraction and pointer unpack), and finally the next block receives the phi
and either the comma-ok tuple construction or the interfaceTypeAssert trap. -/
def parseTypeAssertTrace (assertedIsInterface commaOk : Bool) : List (ABlock × AInstr) :=
  [(.entry, .extractTypecode)] ++
  (if assertedIsInterface then [(.entry, .callInterfaceImplements)]
   else [(.entry, .callTypeAssert)]) ++
  [(.entry, .condBr)] ++
  (if assertedIsInterface then []
   else [(.okB, .extractValueSlot), (.okB, .pointerUnpack)]) ++
  [(.okB, .brNext)] ++
  [(.nextB, .phi)] ++
  (if commaOk then [(.nextB, .insertValue), (.nextB, .insertValue)]
   else [(.nextB, .callInterfaceTypeAssert)])

/-- The instructions executed when the emitted code runs with assertion
outcome `ok`: the entry block, then the ok block only on success, then the
next block (the conditional branch targets okBlock on success and nextBlock
on failure). -/
def executedInstrs (assertedIsInterface commaOk ok : Bool) : List AInstr :=
  ((parseTypeAssertTrace assertedIsInterface commaOk).filter
    (fun p => ok || !(p.1 == ABlock.okB))).map Prod.snd

/-- The comma-ok result of the emitted code for a type assert on a concrete
type, executed under the lowering contract of the spec: the typeAssert call
is lowered to an equality test of the two typecode identities.  The phi
merges the zero value (entry edge) with the unboxing read (ok edge), and
the tuple pairs it with the flag. -/
def typeAssertResult (actualTc assertedTc : String) (slot zeroVal : Value) : Value × Bool :=
  let commaOk := actualTc == assertedTc
  if commaOk then ((emitPointerUnpack slot).headD .undef, true) else (zeroVal, false)

/- ===== C4 ===== -/

/-- C4: for a comma-ok type assert on a concrete type, the conditional
branch is emitted before the unboxing extraction of the value slot, every
such extraction lives in the ok block, the failure path executes no
unboxing read at all, and the failure result is the zero value of the
asserted type paired with false. -/
theorem claim_C4 (actualTc assertedTc : String) (slot zeroVal : Value)
    (hne : actualTc ≠ assertedTc) :
    (((parseTypeAssertTrace false true).takeWhile
        (fun p => !(p.2 == AInstr.condBr))).all
      (fun p => !(p.2 == AInstr.extractValueSlot)) = true) ∧
    (((parseTypeAssertTrace false true).filter
        (fun p => p.2 == AInstr.extractValueSlot)).all
      (fun p => p.1 == ABlock.okB) = true) ∧
    ((executedInstrs false true false).contains AInstr.extractValueSlot = false) ∧
    typeAssertResult actualTc assertedTc slot zeroVal = (zeroVal, false) := by
  refine ⟨by decide, by decide, by decide, ?_⟩
  have hb : (actualTc == assertedTc) = false := by
    simp [hne]
  simp [typeAssertResult, hb]

/-- C4 witness: the emitted-code facts at concrete typecode identities. -/
theorem claim_C4_witness :
    (((parseTypeAssertTrace false true).takeWhile
        (fun p => !(p.2 == AInstr.condBr))).all
      (fun p => !(p.2 == AInstr.extractValueSlot)) = true) ∧
    (((parseTypeAssertTrace false true).filter
        (fun p => p.2 == AInstr.extractValueSlot)).all
      (fun p => p.1 == ABlock.okB) = true) ∧
    ((executedInstrs false true false).contains AInstr.extractValueSlot = false) ∧
    typeAssertResult "type:basic:int8" "type:basic:int32" (.packed [.intConst 5])
      (.intConst 0) = (.intConst 0, false) :=
  claim_C4 "type:basic:int8" "type:basic:int32" (.packed [.intConst 5]) (.intConst 0)
    (by decide)

/- ===== C6 ===== -/

/-- The interface value produced by boxing, at the semantic level of the
lowering contract: the typecode identity is the name of the per-type
typeInInterface descriptor global, the value slot is the packed value. -/
structure ItfValue where
  typecodeId : String
  slot : Value

/-- Semantic boxing: parseMakeInterface stores the address of the
`typeInInterface:type:<identity>` global in the typecode slot and bit-packs
the value into the value slot. -/
def boxValue (typ : GoType) (v : Value) : Except String ItfValue :=
  match getTypeCodeName typ with
  | .error e => .error e
  | .ok tn => .ok { typecodeId := "typeInInterface:type:" ++ tn, slot := emitPointerPack [v] }

/-- Semantic comma-ok type assert of an interface value against a concrete
asserted type, under the lowering contract (typecode equality is equality
of the mangled type identities). -/
def typeAssertOnBoxed (itf : ItfValue) (assertedType : GoType) (zeroVal : Value) :
    Except String (Value × Bool) :=
  match getTypeCodeName assertedType with
  | .error e => .error e
  | .ok tn =>
      .ok (typeAssertResult itf.typecodeId ("typeInInterface:type:" ++ tn) itf.slot zeroVal)

/-- C6 (corrected): two distinct source struct types that differ only in a
field name mangle to the same type identity, so boxing a value of the first
and comma-ok asserting to the second yields the value and true, not the
claimed zero value and false. -/
theorem claim_C6_counterexample :
    (GoType.structT [("x", .basic .int32)] ≠ GoType.structT [("y", .basic .int32)]) ∧
    (∃ itf, boxValue (.structT [("x", .basic .int32)]) (.intConst 5) = .ok itf ∧
      typeAssertOnBoxed itf (.structT [("y", .basic .int32)]) (.intConst 0) =
        .ok (.intConst 5, true)) := by
  constructor
  · simp
  · refine ⟨{ typecodeId := "typeInInterface:type:struct:\x7bbasic:int32\x7d",
              slot := .packed [.intConst 5] }, ?_, ?_⟩
    · simp [boxValue, getTypeCodeName, mangleTag, mangleFieldList, basicKindName,
        emitPointerPack]
      rfl
    · simp [typeAssertOnBoxed, getTypeCodeName, mangleTag, mangleFieldList, basicKindName,
        typeAssertResult, emitPointerUnpack]
      rfl

/-- C6 (amended): boxing v into an interface and asserting back to the same
type yields (v, true); asserting to a concrete type with a distinct type
identity (mangled name) yields (zero, false).  Distinctness of the mangled
identities, not mere distinctness of the source types, is what the emitted
typecode comparison tests. -/
theorem claim_C6 (typ typ2 : GoType) (v zeroVal : Value) (tn tn2 : String)
    (h1 : getTypeCodeName typ = .ok tn) (h2 : getTypeCodeName typ2 = .ok tn2) :
    ∃ itf, boxValue typ v = .ok itf ∧
      typeAssertOnBoxed itf typ zeroVal = .ok (v, true) ∧
      (tn ≠ tn2 → typeAssertOnBoxed itf typ2 zeroVal = .ok (zeroVal, false)) := by
  refine ⟨{ typecodeId := "typeInInterface:type:" ++ tn, slot := emitPointerPack [v] },
    by simp [boxValue, h1], ?_, ?_⟩
  · simp [typeAssertOnBoxed, h1, typeAssertResult, emitPointerPack, emitPointerUnpack]
  · intro hne
    have hb : (("typeInInterface:type:" ++ tn) == ("typeInInterface:type:" ++ tn2)) =
        false := by
      simp only [beq_eq_false_iff_ne, ne_eq]
      intro hcon
      exact hne (by
        have := congrArg String.data hcon
        simp only [String.data_append] at this
        exact String.ext (List.append_cancel_left this))
    simp [typeAssertOnBoxed, h2, typeAssertResult, hb]

/-- C6 witness: boxing an 8-bit integer 5, asserting back to int8 and to
int32. -/
theorem claim_C6_witness :
    getTypeCodeName (GoType.basic .int8) = .ok "basic:int8" ∧
    getTypeCodeName (GoType.basic .int32) = .ok "basic:int32" ∧
    ("basic:int8" : String) ≠ "basic:int32" ∧
    (∃ itf, boxValue (.basic .int8) (.intConst 5) = .ok itf ∧
      typeAssertOnBoxed itf (.basic .int8) (.intConst 0) = .ok (.intConst 5, true) ∧
      (("basic:int8" : String) ≠ "basic:int32" →
        typeAssertOnBoxed itf (.basic .int32) (.intConst 0) = .ok (.intConst 0, false))) := by
  have h1 : getTypeCodeName (GoType.basic .int8) = .ok "basic:int8" := by
    simp [getTypeCodeName, mangleTag, basicKindName]
  have h2 : getTypeCodeName (GoType.basic .int32) = .ok "basic:int32" := by
    simp [getTypeCodeName, mangleTag, basicKindName]
  exact ⟨h1, h2, by decide,
    claim_C6 (.basic .int8) (.basic .int32) (.intConst 5) (.intConst 0) _ _ h1 h2⟩

end TinyGoModel
